import Mathlib

/-!
Verification of the adaptive tuning core (skill-evolution subsystem):
a shallow embedding, in Lean 4, of the Python modules

  leo-skills/core/evolution/metrics.py
  leo-skills/core/evolution/learner.py    (SkillLearner)
  leo-skills/core/evolution/evolver.py    (SkillEvolver)
  leo-skills/core/evolution/adapter.py    (SkillAdapter)
  leo-skills/core/evolution/performer.py  (EvolvableSkill)

Modelling conventions, used consistently below:
- Python floats are modelled as exact rationals (ℚ); all thresholds in the
  source (0.7, 0.6, ...) are exact decimal literals, so nothing is lost.
- Python dicts are modelled as association lists in insertion order
  (a dict assignment to an existing key keeps its position; a new key is
  appended at the end), with lookup returning the first binding.
- Parameter values handled by the learner/performer are modelled as strings
  (the learner stringifies them into grouping keys anyway); arbitrary
  JSON/YAML-like values (configuration documents, rule payloads) are
  modelled by the inductive type JVal.
- File-system state (the knowledge documents, the configuration document,
  the snapshot directory) is passed explicitly as a state value; a write
  that the source performs unconditionally always succeeds in the model.
- datetime.now() values are threaded in as explicit arguments
  (a numeric timestamp, or the version string it is formatted into).
-/

/-- JSON/YAML-like values: the model of Python's Any for configuration
documents and optimization-rule payloads. Mappings are association lists;
non-mapping values are all opaque to the adapter's path navigation. -/
inductive JVal where
  | s (x : String)
  | n (x : ℚ)
  | b (x : Bool)
  | null
  | o (fields : List (String × JVal))

/-- Lookup of the first binding of a key in an association list
(Python d.get(k) / d[k]). -/
def dlookup {α : Type} (k : String) : List (String × α) → Option α
  | [] => none
  | (k', v) :: rest => if k' = k then some v else dlookup k rest

/-- Assignment d[k] = v on an association-list dict: replaces the first
binding of the key in place, or appends a new binding at the end —
exactly the observable behaviour of a Python dict assignment. -/
def dset {α : Type} (k : String) (v : α) : List (String × α) → List (String × α)
  | [] => [(k, v)]
  | (k', v') :: rest => if k' = k then (k, v) :: rest else (k', v') :: dset k v rest

/-- Deletion del d[k] on an association-list dict (first binding). -/
def ddel {α : Type} (k : String) : List (String × α) → List (String × α)
  | [] => []
  | (k', v') :: rest => if k' = k then rest else (k', v') :: ddel k rest

/-- Key list of an association-list dict, in order. -/
def dkeys {α : Type} (l : List (String × α)) : List String := l.map Prod.fst

/-- ExecutionMetrics (metrics.py lines 11-36): the record of one execution.
Parameter values are modelled as strings (see the header). -/
structure ExecutionMetrics where
  skill_name : String
  timestamp : ℕ
  success : Bool
  duration : ℚ
  quality_score : ℚ := 0
  user_feedback : Option String := none
  parameters : List (String × String) := []
  output_metrics : List (String × JVal) := []
  error_message : Option String := none

/-- One entry of failure_patterns as built by
SkillLearner._identify_failure_patterns. -/
structure FailurePattern where
  error : String
  count : ℕ
  frequency : ℚ
  common_parameters : List (String × String)

/-- One entry of improvement_opportunities as built by
SkillLearner._find_improvements. -/
structure Improvement where
  type : String
  current : ℚ
  target : ℚ
  suggestion : String

/-- AnalysisResult (metrics.py lines 39-49), with the dataclass defaults.
performance_trends is a dict with mixed (string/number) values, modelled
with JVal; confidence_scores is a dict of rationals. -/
structure AnalysisResult where
  success_rate : ℚ
  avg_duration : ℚ
  avg_quality_score : ℚ
  optimal_parameters : List (String × String) := []
  failure_patterns : List FailurePattern := []
  performance_trends : List (String × JVal) := []
  improvement_opportunities : List Improvement := []
  confidence_scores : List (String × ℚ) := []

/-- BestPractice (metrics.py lines 52-72). Condition and action values are
strings in every value the source ever constructs. -/
structure BestPractice where
  name : String
  description : String
  conditions : List (String × String)
  actions : List (String × String)
  expected_improvement : ℚ
  success_rate : ℚ := 0
  usage_count : ℕ := 0

/-- OptimizationRule (metrics.py lines 75-95). -/
structure OptimizationRule where
  name : String
  type : String
  target : String
  action : String
  value : JVal
  confidence : ℚ
  expected_gain : ℚ := 0

/-- Result dict returned by a skill's _execute_core (performer.py): the
fields execute itself reads, each optional because the dict may omit it. -/
structure RDict where
  success : Option Bool := none
  quality_score : Option ℚ := none
  output_metrics : Option (List (String × JVal)) := none
  error : Option String := none

/-- ExecutionResult (metrics.py lines 98-105). -/
structure ExecutionResult where
  success : Bool
  data : RDict
  duration : ℚ
  metrics : Option ExecutionMetrics := none
  error : Option String := none

/-- Raw execution_result dict passed to SkillLearner.collect_execution_data:
every field the method reads with .get, so every field is optional here. -/
structure ExecInput where
  success : Option Bool := none
  duration : Option ℚ := none
  quality_score : Option ℚ := none
  user_feedback : Option String := none
  parameters : Option (List (String × String)) := none
  output_metrics : Option (List (String × JVal)) := none
  error : Option String := none

/-- SkillLearner.collect_execution_data (learner.py lines 26-43): builds an
ExecutionMetrics straight from the raw dict with .get defaults — the values
are copied verbatim, no clamping or validation of any kind. -/
def collectExecutionData (skill_name : String) (timestamp : ℕ) (d : ExecInput) :
    ExecutionMetrics :=
  { skill_name := skill_name
    timestamp := timestamp
    success := d.success.getD false
    duration := d.duration.getD 0
    quality_score := d.quality_score.getD 0
    user_feedback := d.user_feedback
    parameters := d.parameters.getD []
    output_metrics := d.output_metrics.getD []
    error_message := d.error }

/-- Successful high-quality runs (learner.py line 126):
the runs with success and quality_score > 0.7. -/
def qualifying (history : List ExecutionMetrics) : List ExecutionMetrics :=
  history.filter (fun m => m.success && decide ((0.7 : ℚ) < m.quality_score))

/-- Grouping key built at learner.py line 136: the f-string "param=value". -/
def mkKey (param value : String) : String := param ++ "=" ++ value

/-- key.split('=')[0] — the text before the first '='. -/
def keyName (k : String) : String :=
  String.mk (k.data.takeWhile (fun c => decide (c ≠ '=')))

/-- key.split('=', 1)[1] — the text after the first '='. -/
def keyVal (k : String) : String :=
  String.mk ((k.data.dropWhile (fun c => decide (c ≠ '='))).tail)

/-- Flattened (key, quality_score) occurrence list of the double loop at
learner.py lines 134-139: runs in history order, parameters in dict order. -/
def occList : List ExecutionMetrics → List (String × ℚ)
  | [] => []
  | m :: rest =>
    m.parameters.map (fun p => (mkKey p.1 p.2, m.quality_score)) ++ occList rest

/-- param_scores[key].append(score) with creation of a missing bucket
(learner.py lines 137-139). -/
def addScore : List (String × List ℚ) → String → ℚ → List (String × List ℚ)
  | [], k, q => [(k, [q])]
  | (k', l) :: rest, k, q =>
    if k' = k then (k', l ++ [q]) :: rest else (k', l) :: addScore rest k q

/-- The param_scores dict after the collection loop of
SkillLearner._find_optimal_parameters. -/
def paramScores (history : List ExecutionMetrics) : List (String × List ℚ) :=
  (occList (qualifying history)).foldl (fun ps kq => addScore ps kq.1 kq.2) []

/-- Arithmetic mean, sum(scores) / len(scores). -/
def mean (l : List ℚ) : ℚ := l.sum / (l.length : ℚ)

/-- optimal[param_name] = {...} at learner.py lines 147-152: keep the first
entry per name unless a strictly higher average score arrives (replacement
keeps the dict position, as a Python dict assignment does). -/
def updateOptimal : List (String × String × ℚ) → String → String → ℚ →
    List (String × String × ℚ)
  | [], n, v, s => [(n, v, s)]
  | (n', v', s') :: rest, n, v, s =>
    if n' = n then (if s' < s then (n, v, s) :: rest else (n', v', s') :: rest)
    else (n', v', s') :: updateOptimal rest n v s

/-- Selection loop of _find_optimal_parameters (learner.py lines 142-152):
buckets with at least 3 scores compete, keyed by key.split('=')[0], valued
by key.split('=',1)[1], scored by the bucket's mean. -/
def buildOptimal (ps : List (String × List ℚ)) : List (String × String × ℚ) :=
  ps.foldl
    (fun opt kl =>
      if 3 ≤ kl.2.length then updateOptimal opt (keyName kl.1) (keyVal kl.1) (mean kl.2)
      else opt)
    []

/-- SkillLearner._find_optimal_parameters (learner.py lines 123-154):
the final comprehension keeps name ↦ value. -/
def findOptimalParameters (history : List ExecutionMetrics) : List (String × String) :=
  (buildOptimal (paramScores history)).map (fun e => (e.1, e.2.1))

/-- Grouping of failed runs by error message (learner.py lines 163-169),
with the "Unknown" default. -/
def addFailure : List (String × List ExecutionMetrics) → String → ExecutionMetrics →
    List (String × List ExecutionMetrics)
  | [], e, m => [(e, [m])]
  | (e', l) :: rest, e, m =>
    if e' = e then (e', l ++ [m]) :: rest else (e', l) :: addFailure rest e m

/-- SkillLearner._find_common_parameters (learner.py lines 183-196). -/
def findCommonParameters (ms : List ExecutionMetrics) : List (String × String) :=
  match ms with
  | [] => []
  | m0 :: _ =>
    m0.parameters.filter (fun p => ms.all (fun m => dlookup p.1 m.parameters == some p.2))

/-- SkillLearner._identify_failure_patterns (learner.py lines 156-181):
error groups of size ≥ 2 become FailurePattern entries. -/
def identifyFailurePatterns (history : List ExecutionMetrics) : List FailurePattern :=
  let failures := history.filter (fun m => !m.success)
  let groups := failures.foldl (fun g m => addFailure g (m.error_message.getD "Unknown") m) []
  groups.filterMap (fun eg =>
    if 2 ≤ eg.2.length then
      some { error := eg.1
             count := eg.2.length
             frequency := (eg.2.length : ℚ) / (history.length : ℚ)
             common_parameters := findCommonParameters eg.2 }
    else none)

/-- SkillLearner._analyze_trends (learner.py lines 198-218). -/
def analyzeTrends (history : List ExecutionMetrics) : List (String × JVal) :=
  if history.length < 5 then [("trend", .s "insufficient_data")]
  else
    let mid := history.length / 2
    let recent := history.drop mid
    let earlier := history.take mid
    let rsr := (recent.countP (fun m => m.success) : ℚ) / (recent.length : ℚ)
    let esr := (earlier.countP (fun m => m.success) : ℚ) / (earlier.length : ℚ)
    let rq := (recent.map (fun m => m.quality_score)).sum / (recent.length : ℚ)
    let eq := (earlier.map (fun m => m.quality_score)).sum / (earlier.length : ℚ)
    [("success_rate_change", .n (rsr - esr)),
     ("quality_score_change", .n (rq - eq)),
     ("trend", .s (if esr < rsr then "improving" else "declining"))]

/-- SkillLearner._find_improvements (learner.py lines 220-253). -/
def findImprovements (history : List ExecutionMetrics)
    (success_rate avg_quality : ℚ) : List Improvement :=
  let o1 : List Improvement :=
    if success_rate < 0.8 then
      [{ type := "success_rate", current := success_rate, target := 0.85,
         suggestion := "分析失败模式，调整参数或增加错误处理" }]
    else []
  let o2 : List Improvement :=
    if avg_quality < 0.7 then
      [{ type := "quality_score", current := avg_quality, target := 0.8,
         suggestion := "优化输出质量，参考高分案例的参数配置" }]
    else []
  let avg_duration := (history.map (fun m => m.duration)).sum / (history.length : ℚ)
  let o3 : List Improvement :=
    if 60 < avg_duration then
      [{ type := "performance", current := avg_duration, target := 30,
         suggestion := "优化执行流程，考虑并行处理或缓存" }]
    else []
  o1 ++ o2 ++ o3

/-- SkillLearner._calculate_confidence (learner.py lines 255-272). -/
def calcConfidence (history : List ExecutionMetrics) : List (String × ℚ) :=
  let sample_size := history.length
  let base : ℚ :=
    if sample_size < 5 then 0.3
    else if sample_size < 10 then 0.5
    else if sample_size < 20 then 0.7
    else 0.9
  [("overall", base), ("sample_size", (sample_size : ℚ))]

/-- SkillLearner.analyze_patterns (learner.py lines 85-121). The empty
history short-circuits to the dataclass defaults. -/
def analyzePatterns (history : List ExecutionMetrics) : AnalysisResult :=
  match history with
  | [] => { success_rate := 0, avg_duration := 0, avg_quality_score := 0 }
  | _ :: _ =>
    let n : ℚ := (history.length : ℚ)
    let success_rate := (history.countP (fun m => m.success) : ℚ) / n
    let avg_duration := (history.map (fun m => m.duration)).sum / n
    let avg_quality_score := (history.map (fun m => m.quality_score)).sum / n
    { success_rate := success_rate
      avg_duration := avg_duration
      avg_quality_score := avg_quality_score
      optimal_parameters := findOptimalParameters history
      failure_patterns := identifyFailurePatterns history
      performance_trends := analyzeTrends history
      improvement_opportunities := findImprovements history success_rate avg_quality_score
      confidence_scores := calcConfidence history }

/-- Overall confidence carried by an analysis, read exactly the way the
code reads it (evolver.py line 63): confidence_scores.get('overall', 0.5). -/
def analysisConfidence (a : AnalysisResult) : ℚ :=
  (dlookup "overall" a.confidence_scores).getD 0.5

/-- Overall confidence the learner assigns to a history, read from
calcConfidence's result. -/
def learnerConfidence (history : List ExecutionMetrics) : ℚ :=
  (dlookup "overall" (calcConfidence history)).getD 0

/-- SkillEvolver.extract_best_practices (evolver.py lines 26-55). -/
def extractBestPractices (analysis : AnalysisResult) : List BestPractice :=
  let p1 : List BestPractice :=
    match analysis.optimal_parameters with
    | [] => []
    | _ :: _ =>
      if (0.7 : ℚ) < analysis.success_rate then
        analysis.optimal_parameters.map (fun pv =>
          { name := "optimal_" ++ pv.1
            description := "使用最优参数 " ++ pv.1 ++ "=" ++ pv.2
            conditions := [("context", "general")]
            actions := [(pv.1, pv.2)]
            expected_improvement := 0.1
            success_rate := analysis.success_rate })
      else []
  let p2 : List BestPractice :=
    match dlookup "trend" analysis.performance_trends with
    | some (.s t) =>
      if t = "improving" then
        [{ name := "performance_improving"
           description := "当前配置表现良好，继续保持"
           conditions := [("trend", "improving")]
           actions := [("maintain", "current_config")]
           expected_improvement := 0.05
           success_rate := analysis.success_rate }]
      else []
    | _ => []
  p1 ++ p2

/-- Parameter rule built at evolver.py lines 65-73. -/
def mkParamRule (param value : String) (confidence : ℚ) : OptimizationRule :=
  { name := "optimize_" ++ param
    type := "parameter"
    target := param
    action := "adjust"
    value := .s value
    confidence := confidence
    expected_gain := 0.1 }

/-- Retry-policy config rule built at evolver.py lines 80-88. -/
def retryRule : OptimizationRule :=
  { name := "improve_success_rate"
    type := "config"
    target := "retry_config"
    action := "add"
    value := .o [("max_retries", .n 3), ("retry_delay", .n 1)]
    confidence := 0.7
    expected_gain := 0.15 }

/-- SkillEvolver.generate_optimization_rules (evolver.py lines 57-91):
parameter rules are gated on confidence > 0.6, where confidence is
confidence_scores.get('overall', 0.5); one retry config rule per
success_rate opportunity when success_rate < 0.8. -/
def generateOptimizationRules (analysis : AnalysisResult) : List OptimizationRule :=
  let confidence := analysisConfidence analysis
  let paramRules := analysis.optimal_parameters.filterMap (fun pv =>
    if (0.6 : ℚ) < confidence then some (mkParamRule pv.1 pv.2 confidence) else none)
  let configRules := analysis.improvement_opportunities.filterMap (fun o =>
    if o.type = "success_rate" ∧ analysis.success_rate < 0.8 then some retryRule else none)
  paramRules ++ configRules

/-- Serialized form of a BestPractice in the best_practices.json document:
to_dict writes every field; load reads success_rate and usage_count with
.get defaults, so those two are optional on the way back in. -/
structure PracticeItem where
  name : String
  description : String
  conditions : List (String × String)
  actions : List (String × String)
  expected_improvement : ℚ
  success_rate : Option ℚ := none
  usage_count : Option ℕ := none

/-- BestPractice.to_dict (metrics.py lines 63-72). -/
def practiceToDict (p : BestPractice) : PracticeItem :=
  { name := p.name
    description := p.description
    conditions := p.conditions
    actions := p.actions
    expected_improvement := p.expected_improvement
    success_rate := some p.success_rate
    usage_count := some p.usage_count }

/-- Reconstruction of a BestPractice in load_best_practices
(evolver.py lines 122-132). -/
def practiceOfDict (i : PracticeItem) : BestPractice :=
  { name := i.name
    description := i.description
    conditions := i.conditions
    actions := i.actions
    expected_improvement := i.expected_improvement
    success_rate := i.success_rate.getD 0
    usage_count := i.usage_count.getD 0 }

/-- Serialized form of an OptimizationRule in optimization_rules.json;
expected_gain is read back with a .get default. -/
structure RuleItem where
  name : String
  type : String
  target : String
  action : String
  value : JVal
  confidence : ℚ
  expected_gain : Option ℚ := none

/-- OptimizationRule.to_dict (metrics.py lines 86-95). -/
def ruleToDict (r : OptimizationRule) : RuleItem :=
  { name := r.name
    type := r.type
    target := r.target
    action := r.action
    value := r.value
    confidence := r.confidence
    expected_gain := some r.expected_gain }

/-- Reconstruction of an OptimizationRule in load_optimization_rules
(evolver.py lines 147-156). -/
def ruleOfDict (i : RuleItem) : OptimizationRule :=
  { name := i.name
    type := i.type
    target := i.target
    action := i.action
    value := i.value
    confidence := i.confidence
    expected_gain := i.expected_gain.getD 0 }

/-- Persistent state of a SkillEvolver: the two knowledge documents.
A document is none as long as its file does not exist. -/
structure EvolverState where
  practices_doc : Option (List PracticeItem) := none
  rules_doc : Option (List RuleItem) := none

/-- SkillEvolver.store_knowledge (evolver.py lines 93-111): each document
is (re)written only when the corresponding list is non-empty — the
Python guards are the truthiness tests if practices: and if rules:. -/
def storeKnowledge (practices : List BestPractice) (rules : List OptimizationRule)
    (s : EvolverState) : EvolverState :=
  let s1 :=
    match practices with
    | [] => s
    | _ :: _ => { s with practices_doc := some (practices.map practiceToDict) }
  match rules with
  | [] => s1
  | _ :: _ => { s1 with rules_doc := some (rules.map ruleToDict) }

/-- SkillEvolver.load_best_practices (evolver.py lines 113-136). -/
def loadBestPractices (s : EvolverState) : List BestPractice :=
  match s.practices_doc with
  | none => []
  | some items => items.map practiceOfDict

/-- SkillEvolver.load_optimization_rules (evolver.py lines 138-161). -/
def loadOptimizationRules (s : EvolverState) : List OptimizationRule :=
  match s.rules_doc with
  | none => []
  | some items => items.map ruleOfDict

/-- Configuration document handled by the adapter: a mapping at top level,
as _load_config / _save_config read and write it. -/
def Config := List (String × JVal)

/-- Persistent state of a SkillAdapter: the configuration document and the
snapshot directory (snapshot files keyed by version id; the constant
skill-name prefix of the file name is dropped from the key). -/
structure AdapterState where
  config : Config
  snapshots : List (String × Config) := []

/-- rule.target.split('.'), character-exact: Python str.split keeps empty
pieces, and splitting the empty string gives ['']. -/
def splitChar (c : Char) : List Char → List (List Char)
  | [] => [[]]
  | x :: xs =>
    if x = c then [] :: splitChar c xs
    else
      match splitChar c xs with
      | [] => [[x]]
      | h :: t => (x :: h) :: t

/-- Dotted-path key list of an optimization target. -/
def splitDots (s : String) : List String := (splitChar '.' s.data).map String.mk

/-- Navigation-and-assignment core of SkillAdapter._adjust_parameter
(adapter.py lines 79-92): walk all keys but the last, creating missing
intermediate dicts; assign rule.value at the last key. Encountering a
non-mapping value anywhere on the way raises in Python (membership test or
item assignment on a non-dict) — modelled as none, which the caller turns
into the except-branch: nothing is saved and False is returned. -/
def setPath : List String → Config → JVal → Option Config
  | [], _, _ => none
  | [k], cfg, v => some (dset k v cfg)
  | k :: k2 :: rest, cfg, v =>
    match dlookup k cfg with
    | none => (setPath (k2 :: rest) [] v).map (fun inner => dset k (.o inner) cfg)
    | some (.o inner) => (setPath (k2 :: rest) inner v).map (fun i2 => dset k (.o i2) cfg)
    | some _ => none

/-- SkillAdapter._adjust_parameter (adapter.py lines 72-102): on success the
new document is saved and True is returned; on an exception the document is
untouched and False is returned. -/
def adjustParameter (rule : OptimizationRule) (s : AdapterState) : AdapterState × Bool :=
  match setPath (splitDots rule.target) s.config rule.value with
  | some cfg => ({ s with config := cfg }, true)
  | none => (s, false)

/-- SkillAdapter._update_config (adapter.py lines 104-123): add/replace set
the top-level key, remove deletes it (no-op when absent), any other action
leaves the document as is; the document is saved and True returned in every
case. -/
def updateConfig (rule : OptimizationRule) (s : AdapterState) : AdapterState × Bool :=
  let cfg :=
    if rule.action = "add" then dset rule.target rule.value s.config
    else if rule.action = "remove" then ddel rule.target s.config
    else if rule.action = "replace" then dset rule.target rule.value s.config
    else s.config
  ({ s with config := cfg }, true)

/-- SkillAdapter.create_version_snapshot (adapter.py lines 145-157): copy the
current configuration document into the snapshot directory under the fresh
version id (shutil.copy2 overwrites an existing file of the same name). The
version string stands for the datetime-derived id and is an argument. -/
def createVersionSnapshot (version : String) (s : AdapterState) : AdapterState × String :=
  ({ s with snapshots := dset version s.config s.snapshots }, version)

/-- Dispatch on rule.type in the loop of apply_optimizations
(adapter.py lines 45-62): unknown types count as failures. -/
def applyOneRule (r : OptimizationRule) (s : AdapterState) : AdapterState × Bool :=
  if r.type = "parameter" then adjustParameter r s
  else if r.type = "config" then updateConfig r s
  else (s, false)

/-- Rule loop of apply_optimizations: threads the state and accumulates
applied and failed rule names in order. -/
def applyRulesLoop : List OptimizationRule → AdapterState →
    AdapterState × List String × List String
  | [], s => (s, [], [])
  | r :: rest, s =>
    let step := applyOneRule r s
    let next := applyRulesLoop rest step.1
    if step.2 then (next.1, r.name :: next.2.1, next.2.2)
    else (next.1, next.2.1, r.name :: next.2.2)

/-- Result record of apply_optimizations; the two Python branches return
dicts with different keys, modelled by optional fields. -/
structure ApplyResult where
  applied : Bool
  snapshot_version : Option String := none
  applied_rules : List String := []
  failed_rules : List String := []
  total : ℕ := 0
  pending_rules : List OptimizationRule := []
  reason : Option String := none

/-- SkillAdapter.apply_optimizations (adapter.py lines 28-70): with
auto_apply the snapshot is created first, then every rule is applied in
order. The fresh version id is an explicit argument (datetime.now). -/
def applyOptimizations (rules : List OptimizationRule) (auto_apply : Bool)
    (version : String) (s : AdapterState) : AdapterState × ApplyResult :=
  if !auto_apply then
    (s, { applied := false, reason := some "auto_apply_disabled", pending_rules := rules })
  else
    let snap := createVersionSnapshot version s
    let res := applyRulesLoop rules snap.1
    (res.1,
     { applied := 0 < res.2.1.length
       snapshot_version := some snap.2
       applied_rules := res.2.1
       failed_rules := res.2.2
       total := rules.length })

/-- SkillAdapter.rollback_to_snapshot (adapter.py lines 159-173): a missing
snapshot returns False and touches nothing; an existing one overwrites the
configuration document with the snapshot's copy and returns True. -/
def rollbackToSnapshot (version : String) (s : AdapterState) : AdapterState × Bool :=
  match dlookup version s.snapshots with
  | none => (s, false)
  | some cfg => ({ s with config := cfg }, true)

/-- EvolvableSkill._check_conditions (performer.py lines 157-169). -/
def checkConditions (conditions : List (String × String))
    (context : List (String × String)) : Bool :=
  if conditions.isEmpty || dlookup "context" conditions == some "general" then true
  else conditions.all (fun kv => dlookup kv.1 context == some kv.2)

/-- Action loop of EvolvableSkill._apply_best_practices (performer.py lines
149-152): a key absent from kwargs, or the sentinel 'maintain', is skipped;
otherwise the kwargs entry is overwritten. -/
def applyActions : List (String × String) → List (String × String) →
    List (String × String)
  | kwargs, [] => kwargs
  | kwargs, pv :: rest =>
    applyActions
      (if dlookup pv.1 kwargs = none ∨ pv.1 = "maintain" then kwargs
       else dset pv.1 pv.2 kwargs)
      rest

/-- EvolvableSkill._apply_best_practices (performer.py lines 139-155):
each practice whose conditions match the current kwargs applies its
actions; kwargs is threaded through (the Python code mutates it). -/
def applyBestPractices (kwargs : List (String × String))
    (practices : List BestPractice) : List (String × String) :=
  match practices with
  | [] => kwargs
  | p :: rest =>
    applyBestPractices
      (if checkConditions p.conditions kwargs then applyActions kwargs p.actions else kwargs)
      rest

/-- EvolvableSkill.execute (performer.py lines 72-123). The wrapped work
_execute_core is an explicit function returning Except: an exception is the
error case and carries str(e). Best practices are applied first when
evolution is enabled; an exception from the work is caught, turned into the
dict literal with the error message, and reported through the returned
ExecutionResult — it never propagates. The measured duration is an explicit
argument; the data-collection and learning-trigger side effects do not
touch the returned value and are omitted here. -/
def execute (evolution_enabled : Bool) (practices : List BestPractice)
    (core : List (String × String) → Except String RDict)
    (kwargs : List (String × String)) (duration : ℚ) : ExecutionResult :=
  match core (if evolution_enabled then applyBestPractices kwargs practices else kwargs) with
  | .ok result =>
    { success := result.success.getD true
      data := result
      duration := duration
      error := none }
  | .error msg =>
    { success := false
      data := { error := some msg }
      duration := duration
      error := some msg }

/-- Scores of the (parameter name, value) group among qualifying runs, one
entry per occurrence, in history order: the statement-level vocabulary for
the optimal-parameter claims. -/
def groupScoresAux (n v : String) : List ExecutionMetrics → List ℚ
  | [] => []
  | m :: rest =>
    m.parameters.filterMap (fun p =>
      if p.1 = n ∧ p.2 = v then some m.quality_score else none) ++ groupScoresAux n v rest

/-- Quality scores observed for parameter n with value v among qualifying
(successful, quality > 0.7) runs. -/
def groupScores (n v : String) (history : List ExecutionMetrics) : List ℚ :=
  groupScoresAux n v (qualifying history)

/-- Number of qualifying runs whose parameter dict contains the binding
n ↦ v. -/
def countRuns (n v : String) (history : List ExecutionMetrics) : ℕ :=
  (qualifying history).countP (fun m => decide ((n, v) ∈ m.parameters))

/-- A minimal execution record used to build concrete histories. -/
def dummyMetric : ExecutionMetrics :=
  { skill_name := "s", timestamp := 0, success := true, duration := 1 }

/-- A successful high-quality run carrying the given parameter dict. -/
def goodRun (params : List (String × String)) : ExecutionMetrics :=
  { skill_name := "s", timestamp := 0, success := true, duration := 1,
    quality_score := 0.8, parameters := params }

/-- A successful run with the given quality score and parameter dict. -/
def goodRunQ (q : ℚ) (params : List (String × String)) : ExecutionMetrics :=
  { skill_name := "s", timestamp := 0, success := true, duration := 1,
    quality_score := q, parameters := params }

/-- Concrete history whose single parameter name contains '=': three
qualifying runs each carrying the parameter "a=b" with value "c". -/
def eqNameHistory : List ExecutionMetrics :=
  [goodRun [("a=b", "c")], goodRun [("a=b", "c")], goodRun [("a=b", "c")]]

/-- Concrete history with two competing values for parameter x: three
qualifying runs at quality 0.9 with x=5 and three at quality 0.8 with x=7. -/
def twoValueHistory : List ExecutionMetrics :=
  [goodRunQ 0.9 [("x", "5")], goodRunQ 0.9 [("x", "5")], goodRunQ 0.9 [("x", "5")],
   goodRunQ 0.8 [("x", "7")], goodRunQ 0.8 [("x", "7")], goodRunQ 0.8 [("x", "7")]]

/-- A sample best practice for concrete store/load tests. -/
def samplePractice : BestPractice :=
  { name := "optimal_x"
    description := "使用最优参数 x=5"
    conditions := [("context", "general")]
    actions := [("x", "5")]
    expected_improvement := 0.1
    success_rate := 0.9
    usage_count := 2 }

/-- A sample optimization rule for concrete store/load tests. -/
def sampleRule : OptimizationRule :=
  { name := "optimize_x"
    type := "parameter"
    target := "x"
    action := "adjust"
    value := .s "5"
    confidence := 0.9
    expected_gain := 0.1 }

/-- An analysis whose overall confidence sits at the withheld side of the
0.6 gate. -/
def lowConfAnalysis : AnalysisResult :=
  { success_rate := 1, avg_duration := 1, avg_quality_score := 1,
    optimal_parameters := [("x", "5")],
    confidence_scores := [("overall", 0.5), ("sample_size", 10)] }

/-- An analysis whose overall confidence passes the 0.6 gate. -/
def highConfAnalysis : AnalysisResult :=
  { success_rate := 1, avg_duration := 1, avg_quality_score := 1,
    optimal_parameters := [("x", "5")],
    confidence_scores := [("overall", 0.9), ("sample_size", 20)] }

/-- An adapter state with no snapshots. -/
def noSnapState : AdapterState :=
  { config := [("k", .s "v")], snapshots := [] }

/-- An adapter state holding one snapshot under version v1. -/
def oneSnapState : AdapterState :=
  { config := [("k", .s "new")], snapshots := [("v1", [("k", .s "old")])] }

/-- Scores attached to one grouping key inside an occurrence list, in
order: the bucket param_scores[k] contains exactly these. -/
def scoresOf (k : String) (occs : List (String × ℚ)) : List ℚ :=
  occs.filterMap (fun kq => if kq.1 = k then some kq.2 else none)

/-- Bucket update in one shot: an existing bucket is extended, a fresh
non-empty score list creates a bucket, an empty one creates nothing. -/
def optBucket (o : Option (List ℚ)) (l : List ℚ) : Option (List ℚ) :=
  match o with
  | some old => some (old ++ l)
  | none => if l = [] then none else some l

/-- Loop invariant of the selection fold of _find_optimal_parameters:
after processing the bucket list ps, (i) every kept entry comes from a
processed bucket of size ≥ 3 whose key it splits, carries that bucket's
mean, and dominates the mean of every processed size-≥3 bucket of the same
split name; (ii) every processed size-≥3 bucket has an entry under its
split name; (iii) kept names are distinct. -/
def OptInv (ps : List (String × List ℚ)) (opt : List (String × String × ℚ)) : Prop :=
  (∀ e ∈ opt, ∃ k l, (k, l) ∈ ps ∧ 3 ≤ l.length ∧ e.1 = keyName k ∧ e.2.1 = keyVal k ∧
    e.2.2 = mean l ∧
    ∀ k' l', (k', l') ∈ ps → 3 ≤ l'.length → keyName k' = e.1 → mean l' ≤ e.2.2) ∧
  (∀ k l, (k, l) ∈ ps → 3 ≤ l.length → ∃ e ∈ opt, e.1 = keyName k) ∧
  (opt.map (fun e => e.1)).Nodup

lemma learnerConfidence_eq_step (h : List ExecutionMetrics) :
    learnerConfidence h =
      (if h.length < 5 then (0.3 : ℚ) else if h.length < 10 then 0.5
       else if h.length < 20 then 0.7 else 0.9) := by
  unfold learnerConfidence calcConfidence
  simp [dlookup]

/-- C2 counterexample: the empty-history analysis carries an empty
confidence_scores map — there is no confidence value 0 in it, and the one
way the code itself reads the overall confidence (with the 0.5 default of
evolver.py line 63) yields 0.5, not 0. -/
theorem analyze_empty_cx :
    (analyzePatterns []).confidence_scores = [] ∧
    analysisConfidence (analyzePatterns []) = 0.5 ∧ (0.5 : ℚ) ≠ 0 := by
  refine ⟨rfl, rfl, by norm_num⟩

/-- C2 (amended): for the empty history, analyze_patterns returns the
all-default record — success_rate, avg_duration and avg_quality_score are
0, and every remaining field (confidence_scores included) is empty rather
than containing a 0 confidence entry. -/
theorem analyze_empty_amended :
    analyzePatterns [] =
      { success_rate := 0, avg_duration := 0, avg_quality_score := 0,
        optimal_parameters := [], failure_patterns := [], performance_trends := [],
        improvement_opportunities := [], confidence_scores := [] } := rfl

/-- C3 counterexample: collect_execution_data stores raw values verbatim —
a raw duration of -1 is stored negative, and a raw quality_score of 1.5 is
stored above 1; nothing clamps them to the claimed ranges. -/
theorem clamp_cx :
    (collectExecutionData "s" 0 { duration := some (-1), quality_score := some 1.5 }).duration < 0 ∧
    (1 : ℚ) <
      (collectExecutionData "s" 0 { duration := some (-1), quality_score := some 1.5 }).quality_score := by
  constructor <;> · simp only [collectExecutionData, Option.getD_some]; norm_num

/-- C3 (amended): no clamping exists — the stored duration and
quality_score are exactly the raw inputs (with default 0 when absent), so
out-of-range raw values persist; the values that are in [0,1] are so by
construction: the success rate (a count divided by the length) and the
learner's overall confidence (one of 0.3/0.5/0.7/0.9). -/
theorem no_clamping_amended (skill : String) (ts : ℕ) (d : ExecInput)
    (h : List ExecutionMetrics) :
    (collectExecutionData skill ts d).duration = d.duration.getD 0 ∧
    (collectExecutionData skill ts d).quality_score = d.quality_score.getD 0 ∧
    0 ≤ (analyzePatterns h).success_rate ∧ (analyzePatterns h).success_rate ≤ 1 ∧
    0 ≤ learnerConfidence h ∧ learnerConfidence h ≤ 1 := by
  refine ⟨rfl, rfl, ?_, ?_, ?_, ?_⟩
  · cases h with
    | nil => simp [analyzePatterns]
    | cons m t =>
      simp only [analyzePatterns]
      exact div_nonneg (by positivity) (by positivity)
  · cases h with
    | nil => simp [analyzePatterns]
    | cons m t =>
      simp only [analyzePatterns]
      rw [div_le_one (by push_cast [List.length_cons]; positivity)]
      exact_mod_cast List.countP_le_length _
  · rw [learnerConfidence_eq_step]; split_ifs <;> norm_num
  · rw [learnerConfidence_eq_step]; split_ifs <;> norm_num

/-- C5: the learner's overall confidence is the step function of the sample
size with boundaries 5/10/20 (values 0.3, 0.5, 0.7, 0.9), and it is
non-decreasing in the history length. -/
theorem confidence_step_function (h : List ExecutionMetrics) :
    (h.length < 5 → learnerConfidence h = 0.3) ∧
    (5 ≤ h.length → h.length < 10 → learnerConfidence h = 0.5) ∧
    (10 ≤ h.length → h.length < 20 → learnerConfidence h = 0.7) ∧
    (20 ≤ h.length → learnerConfidence h = 0.9) ∧
    (∀ h2 : List ExecutionMetrics, h.length ≤ h2.length →
      learnerConfidence h ≤ learnerConfidence h2) := by
  refine ⟨?_, ?_, ?_, ?_, ?_⟩
  · intro h5; rw [learnerConfidence_eq_step, if_pos h5]
  · intro h5 h10
    rw [learnerConfidence_eq_step, if_neg (by omega), if_pos h10]
  · intro h10 h20
    rw [learnerConfidence_eq_step, if_neg (by omega), if_neg (by omega), if_pos h20]
  · intro h20
    rw [learnerConfidence_eq_step, if_neg (by omega), if_neg (by omega), if_neg (by omega)]
  · intro h2 hle
    rw [learnerConfidence_eq_step, learnerConfidence_eq_step]
    split_ifs <;> first | (exfalso; omega) | norm_num

/-- C5 witness: a history of 4 yields 0.3 and a history of 5 yields 0.5. -/
theorem confidence_step_function_witness :
    learnerConfidence (List.replicate 4 dummyMetric) = 0.3 ∧
    learnerConfidence (List.replicate 5 dummyMetric) = 0.5 :=
  ⟨(confidence_step_function (List.replicate 4 dummyMetric)).1 (by simp),
   (confidence_step_function (List.replicate 5 dummyMetric)).2.1 (by simp) (by simp)⟩

/-- C8: an exception from the wrapped work (_execute_core) is caught by
execute and converted into a structured failure result — success is false,
the exception message is the error, and the data dict is the error literal;
the caller receives this ExecutionResult, the exception never propagates. -/
theorem execute_catches_exceptions (en : Bool) (practices : List BestPractice)
    (core : List (String × String) → Except String RDict)
    (kwargs : List (String × String)) (duration : ℚ) (msg : String)
    (hraise : core (if en then applyBestPractices kwargs practices else kwargs) =
      Except.error msg) :
    execute en practices core kwargs duration =
      { success := false, data := { error := some msg }, duration := duration,
        error := some msg } := by
  unfold execute
  rw [hraise]

/-- C8 witness: a work function that always raises is converted into a
structured failure with its message. -/
theorem execute_catches_exceptions_witness :
    execute true [] (fun _ => Except.error "boom") [] 0 =
      { success := false, data := { error := some "boom" }, duration := 0,
        error := some "boom" } :=
  execute_catches_exceptions true [] (fun _ => Except.error "boom") [] 0 "boom" rfl

/-- C9: rollback_to_snapshot on a version with no snapshot returns false
and leaves the state (configuration document included) untouched; on an
existing version it overwrites the configuration document with the
snapshot's copy and returns true. -/
theorem rollback_missing_or_found (s : AdapterState) (version : String) :
    (dlookup version s.snapshots = none → rollbackToSnapshot version s = (s, false)) ∧
    (∀ cfg, dlookup version s.snapshots = some cfg →
      rollbackToSnapshot version s = ({ s with config := cfg }, true)) := by
  constructor
  · intro hmiss; unfold rollbackToSnapshot; rw [hmiss]
  · intro cfg hhit; unfold rollbackToSnapshot; rw [hhit]

/-- C9 witness: a state without snapshots rejects the rollback unchanged;
a state with snapshot v1 is restored from it. -/
theorem rollback_missing_or_found_witness :
    rollbackToSnapshot "v1" noSnapState = (noSnapState, false) ∧
    rollbackToSnapshot "v1" oneSnapState =
      ({ oneSnapState with config := [("k", JVal.s "old")] }, true) :=
  ⟨(rollback_missing_or_found noSnapState "v1").1 rfl,
   (rollback_missing_or_found oneSnapState "v1").2 [("k", JVal.s "old")] rfl⟩

lemma filterMap_some_param_rules (c : ℚ) (l : List (String × String)) :
    l.filterMap (fun pv => some (mkParamRule pv.1 pv.2 c)) =
      l.map (fun pv => mkParamRule pv.1 pv.2 c) := by
  induction l with
  | nil => rfl
  | cons a t ih => simp [ih]

/-- C6: parameter-rule emission is gated on the analysis confidence (the
overall confidence score, defaulted to 0.5) being strictly above 0.6 — at
or below the gate no parameter rule is emitted regardless of
optimal_parameters, above it exactly one parameter rule per optimal
parameter is emitted, each carrying the analysis confidence. -/
theorem rule_generation_gate (a : AnalysisResult) :
    (analysisConfidence a ≤ 0.6 →
      (generateOptimizationRules a).filter (fun r => decide (r.type = "parameter")) = []) ∧
    ((0.6 : ℚ) < analysisConfidence a →
      (generateOptimizationRules a).filter (fun r => decide (r.type = "parameter")) =
        a.optimal_parameters.map (fun pv => mkParamRule pv.1 pv.2 (analysisConfidence a))) := by
  have hconfig :
      ∀ l : List Improvement,
        (l.filterMap (fun o =>
          if o.type = "success_rate" ∧ a.success_rate < 0.8 then some retryRule
          else none)).filter (fun r => decide (r.type = "parameter")) = [] := by
    intro l
    rw [List.filter_eq_nil_iff]
    intro r hr
    obtain ⟨o, _, ho⟩ := List.mem_filterMap.mp hr
    have hr' : r = retryRule := by
      by_cases hc : o.type = "success_rate" ∧ a.success_rate < 0.8
      · rw [if_pos hc] at ho; exact (Option.some_inj.mp ho).symm
      · rw [if_neg hc] at ho; exact absurd ho (Option.noConfusion)
    subst hr'
    simp [retryRule]
  constructor
  · intro hle
    have hgate : ¬ (0.6 : ℚ) < analysisConfidence a := not_lt.mpr hle
    unfold generateOptimizationRules
    simp only [hgate, if_false, List.filterMap_nil, List.filter_append]
    simp [hconfig a.improvement_opportunities]
  · intro hgt
    unfold generateOptimizationRules
    simp only [hgt, if_true, List.filter_append]
    rw [hconfig a.improvement_opportunities, List.append_nil,
      filterMap_some_param_rules (analysisConfidence a) a.optimal_parameters]
    rw [List.filter_eq_self]
    intro r hr
    obtain ⟨pv, _, hpv⟩ := List.mem_map.mp hr
    subst hpv
    simp [mkParamRule]

/-- C6 witness: at overall confidence 0.5 the single optimal parameter
produces no parameter rule; at 0.9 it produces exactly the one rule with
confidence 0.9. -/
theorem rule_generation_gate_witness :
    (generateOptimizationRules lowConfAnalysis).filter
      (fun r => decide (r.type = "parameter")) = [] ∧
    (generateOptimizationRules highConfAnalysis).filter
      (fun r => decide (r.type = "parameter")) =
      highConfAnalysis.optimal_parameters.map
        (fun pv => mkParamRule pv.1 pv.2 (analysisConfidence highConfAnalysis)) :=
  ⟨(rule_generation_gate lowConfAnalysis).1 (by with_unfolding_all decide),
   (rule_generation_gate highConfAnalysis).2 (by with_unfolding_all decide)⟩

lemma practice_dict_roundtrip (p : BestPractice) : practiceOfDict (practiceToDict p) = p := rfl

lemma rule_dict_roundtrip (r : OptimizationRule) : ruleOfDict (ruleToDict r) = r := rfl

lemma practices_map_roundtrip (l : List BestPractice) :
    (l.map practiceToDict).map practiceOfDict = l := by
  induction l with
  | nil => rfl
  | cons p t ih => simp [practice_dict_roundtrip, ih]

lemma rules_map_roundtrip (l : List OptimizationRule) :
    (l.map ruleToDict).map ruleOfDict = l := by
  induction l with
  | nil => rfl
  | cons r t ih => simp [rule_dict_roundtrip, ih]

/-- C1 counterexample: store_knowledge writes a document only when its list
is non-empty, so a subsequent store_knowledge([], []) does not clear the
documents — the loads still return the previously stored non-empty lists. -/
theorem evolver_store_empty_cx :
    loadBestPractices (storeKnowledge [] [] (storeKnowledge [samplePractice] [sampleRule] {})) =
      [samplePractice] ∧
    loadOptimizationRules (storeKnowledge [] [] (storeKnowledge [samplePractice] [sampleRule] {})) =
      [sampleRule] ∧
    ([samplePractice] : List BestPractice) ≠ [] ∧
    ([sampleRule] : List OptimizationRule) ≠ [] := by
  refine ⟨rfl, rfl, by simp, by simp⟩

/-- C1 (amended): store_knowledge with non-empty lists replaces both
documents wholesale, and the loads return exactly what was stored (same
count and field values); store_knowledge([], []), however, writes nothing
at all — it leaves both documents exactly as they were instead of clearing
them. -/
theorem evolver_store_load_roundtrip (P : List BestPractice) (R : List OptimizationRule)
    (s : EvolverState) (hP : P ≠ []) (hR : R ≠ []) :
    loadBestPractices (storeKnowledge P R s) = P ∧
    loadOptimizationRules (storeKnowledge P R s) = R ∧
    ∀ s2 : EvolverState, storeKnowledge [] [] s2 = s2 := by
  refine ⟨?_, ?_, fun s2 => rfl⟩
  · cases P with
    | nil => exact absurd rfl hP
    | cons p ps =>
      cases R with
      | nil => exact absurd rfl hR
      | cons r rs =>
        simp only [storeKnowledge, loadBestPractices]
        exact practices_map_roundtrip (p :: ps)
  · cases P with
    | nil => exact absurd rfl hP
    | cons p ps =>
      cases R with
      | nil => exact absurd rfl hR
      | cons r rs =>
        simp only [storeKnowledge, loadOptimizationRules]
        exact rules_map_roundtrip (r :: rs)

/-- C1 witness: a concrete non-empty store round-trips, and the empty store
leaves the empty state unchanged. -/
theorem evolver_store_load_roundtrip_witness :
    loadBestPractices (storeKnowledge [samplePractice] [sampleRule] {}) = [samplePractice] ∧
    loadOptimizationRules (storeKnowledge [samplePractice] [sampleRule] {}) = [sampleRule] ∧
    storeKnowledge [] [] ({} : EvolverState) = {} := by
  have h := evolver_store_load_roundtrip [samplePractice] [sampleRule] {} (by simp) (by simp)
  exact ⟨h.1, h.2.1, h.2.2 {}⟩

lemma dlookup_dset_self {α : Type} (k : String) (v : α) (l : List (String × α)) :
    dlookup k (dset k v l) = some v := by
  induction l with
  | nil => simp [dset, dlookup]
  | cons h t ih =>
    obtain ⟨k', v'⟩ := h
    by_cases hk : k' = k <;> simp [dset, dlookup, hk, ih]

lemma dlookup_dset_other {α : Type} (k m : String) (v : α) (l : List (String × α))
    (hne : m ≠ k) : dlookup m (dset k v l) = dlookup m l := by
  have hkm : ¬ k = m := fun h => hne h.symm
  induction l with
  | nil => simp [dset, dlookup, hkm]
  | cons h t ih =>
    obtain ⟨k', v'⟩ := h
    by_cases hk : k' = k
    · subst hk
      simp [dset, dlookup, hkm]
    · simp only [dset, if_neg hk, dlookup]
      by_cases hm : k' = m <;> simp [hm, ih]

lemma dkeys_dset_of_mem {α : Type} (k : String) (v : α) (l : List (String × α))
    (hmem : dlookup k l ≠ none) : dkeys (dset k v l) = dkeys l := by
  induction l with
  | nil => exact absurd rfl hmem
  | cons h t ih =>
    obtain ⟨k', v'⟩ := h
    by_cases hk : k' = k
    · subst hk; simp [dset, dkeys]
    · simp only [dlookup, if_neg hk] at hmem
      simp only [dset, if_neg hk]
      show dkeys ((k', v') :: dset k v t) = dkeys ((k', v') :: t)
      simp only [dkeys, List.map_cons]
      exact congrArg (List.cons k') (ih hmem)

lemma applyActions_frame (actions kwargs : List (String × String)) :
    dkeys (applyActions kwargs actions) = dkeys kwargs ∧
    dlookup "maintain" (applyActions kwargs actions) = dlookup "maintain" kwargs := by
  induction actions generalizing kwargs with
  | nil => exact ⟨rfl, rfl⟩
  | cons pv rest ih =>
    unfold applyActions
    by_cases hskip : dlookup pv.1 kwargs = none ∨ pv.1 = "maintain"
    · rw [if_pos hskip]; exact ih kwargs
    · rw [if_neg hskip]
      push_neg at hskip
      obtain ⟨h1, h2⟩ := hskip
      obtain ⟨ihk, ihm⟩ := ih (dset pv.1 pv.2 kwargs)
      refine ⟨?_, ?_⟩
      · rw [ihk, dkeys_dset_of_mem pv.1 pv.2 kwargs h1]
      · rw [ihm, dlookup_dset_other pv.1 "maintain" pv.2 kwargs (fun hc => h2 hc.symm)]

/-- C10: applying best practices never changes the key set of the incoming
parameter map — only values of keys already present can be overwritten,
absent action keys are skipped, and the binding of the sentinel key
'maintain' is never written (its incoming binding, if any, is preserved
untouched). -/
theorem apply_best_practices_frame (kwargs : List (String × String))
    (practices : List BestPractice) :
    dkeys (applyBestPractices kwargs practices) = dkeys kwargs ∧
    dlookup "maintain" (applyBestPractices kwargs practices) =
      dlookup "maintain" kwargs := by
  induction practices generalizing kwargs with
  | nil => exact ⟨rfl, rfl⟩
  | cons p rest ih =>
    unfold applyBestPractices
    by_cases hc : checkConditions p.conditions kwargs
    · rw [if_pos hc]
      obtain ⟨ihk, ihm⟩ := ih (applyActions kwargs p.actions)
      obtain ⟨hak, ham⟩ := applyActions_frame p.actions kwargs
      exact ⟨ihk.trans hak, ihm.trans ham⟩
    · rw [if_neg hc]; exact ih kwargs

lemma applyOneRule_snapshots (r : OptimizationRule) (s : AdapterState) :
    (applyOneRule r s).1.snapshots = s.snapshots := by
  unfold applyOneRule
  split_ifs
  · unfold adjustParameter
    cases hp : setPath (splitDots r.target) s.config r.value <;> simp [hp]
  · unfold updateConfig
    rfl
  · rfl

lemma applyRulesLoop_snapshots (rules : List OptimizationRule) (s : AdapterState) :
    (applyRulesLoop rules s).1.snapshots = s.snapshots := by
  induction rules generalizing s with
  | nil => rfl
  | cons r rest ih =>
    simp only [applyRulesLoop]
    split <;> rw [ih (applyOneRule r s).1, applyOneRule_snapshots]

/-- C4: with auto_apply the adapter snapshots the configuration document
before applying any rule, so rolling back to the returned version restores
the pre-mutation configuration document exactly, whatever the rules did and
whichever of them succeeded or failed. -/
theorem apply_snapshot_rollback_roundtrip (s : AdapterState)
    (rules : List OptimizationRule) (version : String) :
    rollbackToSnapshot version (applyOptimizations rules true version s).1 =
      ({ config := s.config,
         snapshots := (applyOptimizations rules true version s).1.snapshots }, true) := by
  have hsnap : (applyOptimizations rules true version s).1.snapshots =
      dset version s.config s.snapshots := by
    simp only [applyOptimizations, createVersionSnapshot, Bool.not_true]
    rw [if_neg (by simp)]
    exact applyRulesLoop_snapshots rules _
  unfold rollbackToSnapshot
  rw [hsnap, dlookup_dset_self]

lemma string_eq_of_data {a b : String} (h : a.data = b.data) : a = b := by
  cases a; cases b; simp_all

lemma mkKey_data (a b : String) : (mkKey a b).data = a.data ++ '=' :: b.data := by
  simp [mkKey]

lemma takeWhile_until_eq (l r : List Char) (hl : '=' ∉ l) :
    (l ++ '=' :: r).takeWhile (fun c => decide (c ≠ '=')) = l := by
  induction l with
  | nil => simp [List.takeWhile]
  | cons c t ih =>
    have hc : c ≠ '=' := fun hc => hl (hc ▸ List.mem_cons_self c t)
    have ht : '=' ∉ t := fun hm => hl (List.mem_cons_of_mem c hm)
    simp only [List.cons_append, List.takeWhile_cons]
    rw [if_pos (by simpa using hc), ih ht]

lemma dropWhile_until_eq (l r : List Char) (hl : '=' ∉ l) :
    (l ++ '=' :: r).dropWhile (fun c => decide (c ≠ '=')) = '=' :: r := by
  induction l with
  | nil => simp [List.dropWhile]
  | cons c t ih =>
    have hc : c ≠ '=' := fun hc => hl (hc ▸ List.mem_cons_self c t)
    have ht : '=' ∉ t := fun hm => hl (List.mem_cons_of_mem c hm)
    simp only [List.cons_append, List.dropWhile_cons]
    rw [if_pos (by simpa using hc), ih ht]

lemma keyName_mkKey (a b : String) (ha : '=' ∉ a.data) : keyName (mkKey a b) = a := by
  apply string_eq_of_data
  show ((mkKey a b).data.takeWhile (fun c => decide (c ≠ '='))).asString.data = a.data
  rw [mkKey_data, takeWhile_until_eq a.data b.data ha]
  rfl

lemma keyVal_mkKey (a b : String) (ha : '=' ∉ a.data) : keyVal (mkKey a b) = b := by
  apply string_eq_of_data
  show (((mkKey a b).data.dropWhile (fun c => decide (c ≠ '='))).tail).asString.data = b.data
  rw [mkKey_data, dropWhile_until_eq a.data b.data ha, List.tail_cons]
  rfl

lemma mkKey_inj (a b c d : String) (ha : '=' ∉ a.data) (hc : '=' ∉ c.data)
    (h : mkKey a b = mkKey c d) : a = c ∧ b = d :=
  ⟨(keyName_mkKey a b ha).symm.trans (h ▸ keyName_mkKey c d hc),
   (keyVal_mkKey a b ha).symm.trans (h ▸ keyVal_mkKey c d hc)⟩

lemma dlookup_addScore_self (ps : List (String × List ℚ)) (k : String) (q : ℚ) :
    dlookup k (addScore ps k q) = some ((dlookup k ps).getD [] ++ [q]) := by
  induction ps with
  | nil => simp [addScore, dlookup]
  | cons h t ih =>
    obtain ⟨k', l⟩ := h
    by_cases hk : k' = k
    · subst hk; simp [addScore, dlookup]
    · simp [addScore, dlookup, hk, ih]

lemma dlookup_addScore_other (ps : List (String × List ℚ)) (k k2 : String) (q : ℚ)
    (hne : k2 ≠ k) : dlookup k (addScore ps k2 q) = dlookup k ps := by
  induction ps with
  | nil => simp [addScore, dlookup, hne]
  | cons h t ih =>
    obtain ⟨k', l⟩ := h
    by_cases hk : k' = k2
    · subst hk; simp [addScore, dlookup, hne]
    · simp only [addScore, if_neg hk, dlookup]
      by_cases hm : k' = k <;> simp [hm, ih]

lemma scoresOf_cons (k : String) (kq : String × ℚ) (occs : List (String × ℚ)) :
    scoresOf k (kq :: occs) =
      (if kq.1 = k then [kq.2] else []) ++ scoresOf k occs := by
  by_cases hk : kq.1 = k <;> simp [scoresOf, hk]

lemma dlookup_foldl_addScore (occs : List (String × ℚ)) :
    ∀ (ps : List (String × List ℚ)) (k : String),
      dlookup k (occs.foldl (fun a kq => addScore a kq.1 kq.2) ps) =
        optBucket (dlookup k ps) (scoresOf k occs) := by
  induction occs with
  | nil =>
    intro ps k
    simp only [List.foldl_nil, scoresOf, List.filterMap_nil, optBucket]
    cases dlookup k ps <;> simp
  | cons kq rest ih =>
    intro ps k
    rw [List.foldl_cons, ih (addScore ps kq.1 kq.2) k, scoresOf_cons]
    by_cases hk : kq.1 = k
    · subst hk
      rw [dlookup_addScore_self]
      cases hps : dlookup kq.1 ps <;> simp [optBucket, hps]
    · rw [dlookup_addScore_other ps k kq.1 kq.2 hk, if_neg hk, List.nil_append]

lemma dlookup_paramScores (history : List ExecutionMetrics) (k : String) :
    dlookup k (paramScores history) =
      optBucket none (scoresOf k (occList (qualifying history))) := by
  unfold paramScores
  rw [dlookup_foldl_addScore (occList (qualifying history)) [] k]
  rfl

lemma dlookup_eq_none_iff_keys {α : Type} (ps : List (String × α)) (k : String) :
    dlookup k ps = none ↔ k ∉ dkeys ps := by
  induction ps with
  | nil => simp [dlookup, dkeys]
  | cons h t ih =>
    obtain ⟨k', v⟩ := h
    by_cases hk : k' = k
    · subst hk; simp [dlookup, dkeys]
    · simp [dlookup, dkeys, hk, ih, Ne.symm hk]

lemma dkeys_addScore (ps : List (String × List ℚ)) (k : String) (q : ℚ) :
    dkeys (addScore ps k q) =
      if dlookup k ps = none then dkeys ps ++ [k] else dkeys ps := by
  induction ps with
  | nil => simp [addScore, dlookup, dkeys]
  | cons h t ih =>
    obtain ⟨k', l⟩ := h
    by_cases hk : k' = k
    · subst hk; simp [addScore, dlookup, dkeys]
    · simp only [addScore, if_neg hk, dlookup, dkeys, List.map_cons]
      rw [show List.map Prod.fst (addScore t k q) = dkeys (addScore t k q) from rfl, ih]
      by_cases ht : dlookup k t = none <;> simp [ht, hk, dkeys]

lemma nodup_dkeys_addScore (ps : List (String × List ℚ)) (k : String) (q : ℚ)
    (hnd : (dkeys ps).Nodup) : (dkeys (addScore ps k q)).Nodup := by
  rw [dkeys_addScore]
  by_cases hl : dlookup k ps = none
  · rw [if_pos hl]
    have hk : k ∉ dkeys ps := (dlookup_eq_none_iff_keys ps k).mp hl
    simp [List.nodup_append, hnd]
    exact fun h => hk h
  · rw [if_neg hl]; exact hnd

lemma nodup_dkeys_foldl_addScore (occs : List (String × ℚ)) :
    ∀ ps : List (String × List ℚ), (dkeys ps).Nodup →
      (dkeys (occs.foldl (fun a kq => addScore a kq.1 kq.2) ps)).Nodup := by
  induction occs with
  | nil => intro ps h; exact h
  | cons kq rest ih =>
    intro ps h
    rw [List.foldl_cons]
    exact ih (addScore ps kq.1 kq.2) (nodup_dkeys_addScore ps kq.1 kq.2 h)

lemma nodup_dkeys_paramScores (history : List ExecutionMetrics) :
    (dkeys (paramScores history)).Nodup := by
  unfold paramScores
  exact nodup_dkeys_foldl_addScore (occList (qualifying history)) [] (by simp [dkeys])

lemma dlookup_of_mem_nodup {α : Type} (ps : List (String × α)) (k : String) (l : α)
    (hnd : (dkeys ps).Nodup) (hm : (k, l) ∈ ps) : dlookup k ps = some l := by
  induction ps with
  | nil => cases hm
  | cons h t ih =>
    obtain ⟨k', v⟩ := h
    simp only [dkeys, List.map_cons, List.nodup_cons] at hnd
    rcases List.mem_cons.mp hm with heq | ht
    · obtain ⟨h1, h2⟩ := Prod.mk.injEq .. ▸ heq
      subst h1; subst h2
      simp [dlookup]
    · have hk : k' ≠ k := by
        intro hc
        subst hc
        exact hnd.1 (List.mem_map.mpr ⟨(k', l), ht, rfl⟩)
      simp only [dlookup, if_neg hk]
      exact ih hnd.2 ht

lemma mem_of_dlookup {α : Type} (ps : List (String × α)) (k : String) (l : α)
    (h : dlookup k ps = some l) : (k, l) ∈ ps := by
  induction ps with
  | nil => simp [dlookup] at h
  | cons hd t ih =>
    obtain ⟨k', v⟩ := hd
    by_cases hk : k' = k
    · subst hk
      have h2 : v = l := by simpa [dlookup] using h
      subst h2
      exact List.mem_cons_self _ _
    · simp only [dlookup, if_neg hk] at h
      exact List.mem_cons_of_mem _ (ih h)

lemma scoresOf_ne_nil_exists (k : String) (occs : List (String × ℚ))
    (h : scoresOf k occs ≠ []) : ∃ kq ∈ occs, kq.1 = k := by
  induction occs with
  | nil => simp [scoresOf] at h
  | cons kq rest ih =>
    rw [scoresOf_cons] at h
    by_cases hk : kq.1 = k
    · exact ⟨kq, List.mem_cons_self kq rest, hk⟩
    · rw [if_neg hk, List.nil_append] at h
      obtain ⟨kq', h1, h2⟩ := ih h
      exact ⟨kq', List.mem_cons_of_mem _ h1, h2⟩

lemma occList_mem_origin (ms : List ExecutionMetrics) (kq : String × ℚ)
    (h : kq ∈ occList ms) :
    ∃ m ∈ ms, ∃ p ∈ m.parameters, kq = (mkKey p.1 p.2, m.quality_score) := by
  induction ms with
  | nil => cases h
  | cons m rest ih =>
    simp only [occList] at h
    rcases List.mem_append.mp h with h1 | h2
    · obtain ⟨p, hp, he⟩ := List.mem_map.mp h1
      exact ⟨m, List.mem_cons_self m rest, p, hp, he.symm⟩
    · obtain ⟨m', hm', p, hp, he⟩ := ih h2
      exact ⟨m', List.mem_cons_of_mem _ hm', p, hp, he⟩

lemma scoresOf_append (k : String) (l1 l2 : List (String × ℚ)) :
    scoresOf k (l1 ++ l2) = scoresOf k l1 ++ scoresOf k l2 := by
  unfold scoresOf
  exact List.filterMap_append l1 l2 _

lemma scoresOf_occList_eq_group (n v : String) (ms : List ExecutionMetrics)
    (hfree : ∀ m ∈ ms, ∀ p ∈ m.parameters, '=' ∉ p.1.data) (hn : '=' ∉ n.data) :
    scoresOf (mkKey n v) (occList ms) = groupScoresAux n v ms := by
  induction ms with
  | nil => rfl
  | cons m rest ih =>
    have hfm : ∀ p ∈ m.parameters, '=' ∉ p.1.data :=
      hfree m (List.mem_cons_self m rest)
    have hfr : ∀ m' ∈ rest, ∀ p ∈ m'.parameters, '=' ∉ p.1.data :=
      fun m' hm' => hfree m' (List.mem_cons_of_mem _ hm')
    simp only [occList, groupScoresAux]
    rw [scoresOf_append, ih hfr]
    congr 1
    unfold scoresOf
    rw [List.filterMap_map]
    apply List.filterMap_congr
    intro p hp
    by_cases hc : p.1 = n ∧ p.2 = v
    · obtain ⟨h1, h2⟩ := hc
      simp only [Function.comp_apply, h1, h2, if_pos rfl, and_self, if_true]
    · have hne : ¬ mkKey p.1 p.2 = mkKey n v := by
        intro he
        exact hc (mkKey_inj p.1 p.2 n v (hfm p hp) hn he)
      simp only [Function.comp_apply, if_neg hne, if_neg hc]

lemma filterMap_param_nil (params : List (String × String)) (n v : String) (q : ℚ)
    (h : n ∉ params.map Prod.fst) :
    params.filterMap (fun p => if p.1 = n ∧ p.2 = v then some q else none) = [] := by
  induction params with
  | nil => rfl
  | cons p rest ih =>
    have h1 : ¬ p.1 = n := fun hc => h (List.mem_map.mpr ⟨p, List.mem_cons_self p rest, hc⟩)
    have h2 : n ∉ rest.map Prod.fst := fun hc => h (by simp [List.mem_cons]; right; simpa using hc)
    rw [List.filterMap_cons, if_neg (fun hc => h1 hc.1)]
    exact ih h2

lemma filterMap_param_length (params : List (String × String)) (n v : String) (q : ℚ)
    (hnd : (params.map Prod.fst).Nodup) :
    (params.filterMap (fun p => if p.1 = n ∧ p.2 = v then some q else none)).length =
      if (n, v) ∈ params then 1 else 0 := by
  induction params with
  | nil => simp
  | cons p rest ih =>
    simp only [List.map_cons, List.nodup_cons] at hnd
    obtain ⟨hfst, hrest⟩ := hnd
    rw [List.filterMap_cons]
    by_cases hc : p.1 = n ∧ p.2 = v
    · obtain ⟨h1, h2⟩ := hc
      have hpn : p = (n, v) := Prod.ext h1 h2
      have hnr : n ∉ rest.map Prod.fst := h1 ▸ hfst
      rw [if_pos ⟨h1, h2⟩, filterMap_param_nil rest n v q hnr]
      simp [hpn]
    · rw [if_neg hc, ih hrest]
      have hne : (n, v) ≠ p := fun he => hc (by rw [← he]; exact ⟨rfl, rfl⟩)
      by_cases hm : (n, v) ∈ rest
      · rw [if_pos hm, if_pos (List.mem_cons_of_mem p hm)]
      · rw [if_neg hm, if_neg (by simp [List.mem_cons, hne, hm])]

lemma groupScoresAux_length (n v : String) (ms : List ExecutionMetrics)
    (hnd : ∀ m ∈ ms, (m.parameters.map Prod.fst).Nodup) :
    (groupScoresAux n v ms).length =
      ms.countP (fun m => decide ((n, v) ∈ m.parameters)) := by
  induction ms with
  | nil => rfl
  | cons m rest ih =>
    have hm : (m.parameters.map Prod.fst).Nodup := hnd m (List.mem_cons_self m rest)
    have hr : ∀ m' ∈ rest, (m'.parameters.map Prod.fst).Nodup :=
      fun m' hm' => hnd m' (List.mem_cons_of_mem _ hm')
    simp only [groupScoresAux, List.length_append, List.countP_cons]
    rw [filterMap_param_length m.parameters n v m.quality_score hm, ih hr]
    by_cases hc : (n, v) ∈ m.parameters
    · simp [hc, Nat.add_comm]
    · simp [hc]

lemma groupScores_length_eq_countRuns (n v : String) (history : List ExecutionMetrics)
    (hnd : ∀ m ∈ history, (m.parameters.map Prod.fst).Nodup) :
    (groupScores n v history).length = countRuns n v history := by
  unfold groupScores countRuns
  exact groupScoresAux_length n v (qualifying history)
    (fun m hm => hnd m (List.mem_of_mem_filter hm))

lemma updateOptimal_names (opt : List (String × String × ℚ)) (n v : String) (s : ℚ) :
    (updateOptimal opt n v s).map (fun e => e.1) =
      if n ∈ opt.map (fun e => e.1) then opt.map (fun e => e.1)
      else opt.map (fun e => e.1) ++ [n] := by
  induction opt with
  | nil => simp [updateOptimal]
  | cons e rest ih =>
    obtain ⟨n', v', s'⟩ := e
    by_cases hn : n' = n
    · subst hn
      simp only [updateOptimal, if_pos rfl]
      by_cases hs : s' < s <;> simp [hs, List.mem_cons]
    · simp only [updateOptimal, if_neg hn, List.map_cons, ih]
      by_cases hm : n ∈ rest.map (fun e => e.1)
      · rw [if_pos hm, if_pos (by simp [List.mem_cons, hm])]
      · have hnot : n ∉ (n' :: rest.map (fun e => e.1)) := by
          simp only [List.mem_cons, hm, or_false]
          exact fun h => hn h.symm
        rw [if_neg hm, if_neg hnot]
        simp

lemma updateOptimal_mem (opt : List (String × String × ℚ)) (n v : String) (s : ℚ)
    (hnd : (opt.map (fun e => e.1)).Nodup) (e : String × String × ℚ)
    (he : e ∈ updateOptimal opt n v s) :
    (e = (n, v, s) ∧ ∀ e' ∈ opt, e'.1 = n → e'.2.2 < s) ∨
    (e ∈ opt ∧ (e.1 = n → s ≤ e.2.2)) := by
  induction opt with
  | nil =>
    simp only [updateOptimal, List.mem_singleton] at he
    exact Or.inl ⟨he, fun e' he' _ => absurd he' (List.not_mem_nil e')⟩
  | cons e0 rest ih =>
    obtain ⟨n', v', s'⟩ := e0
    simp only [List.map_cons, List.nodup_cons] at hnd
    obtain ⟨hn_notin, hnd_rest⟩ := hnd
    by_cases hn : n' = n
    · subst hn
      simp only [updateOptimal, if_pos rfl] at he
      by_cases hs : s' < s
      · rw [if_pos hs] at he
        rcases List.mem_cons.mp he with rfl | hrest
        · left
          refine ⟨rfl, fun e' he' hname => ?_⟩
          rcases List.mem_cons.mp he' with rfl | hr
          · exact hs
          · exact absurd (List.mem_map.mpr ⟨e', hr, hname⟩) hn_notin
        · right
          refine ⟨List.mem_cons_of_mem _ hrest, fun hname => ?_⟩
          exact absurd (List.mem_map.mpr ⟨e, hrest, hname⟩) hn_notin
      · rw [if_neg hs] at he
        rcases List.mem_cons.mp he with rfl | hrest
        · exact Or.inr ⟨List.mem_cons_self _ _, fun _ => not_lt.mp hs⟩
        · right
          refine ⟨List.mem_cons_of_mem _ hrest, fun hname => ?_⟩
          exact absurd (List.mem_map.mpr ⟨e, hrest, hname⟩) hn_notin
    · simp only [updateOptimal, if_neg hn] at he
      rcases List.mem_cons.mp he with rfl | hrest
      · exact Or.inr ⟨List.mem_cons_self _ _, fun hname => absurd hname hn⟩
      · rcases ih hnd_rest hrest with ⟨heq, hall⟩ | ⟨hmem, himp⟩
        · left
          refine ⟨heq, fun e' he' hname => ?_⟩
          rcases List.mem_cons.mp he' with rfl | hr
          · exact absurd hname hn
          · exact hall e' hr hname
        · exact Or.inr ⟨List.mem_cons_of_mem _ hmem, himp⟩

lemma optInv_append (ps : List (String × List ℚ)) (opt : List (String × String × ℚ))
    (k : String) (l : List ℚ) (hinv : OptInv ps opt) :
    OptInv (ps ++ [(k, l)])
      (if 3 ≤ l.length then updateOptimal opt (keyName k) (keyVal k) (mean l) else opt) := by
  obtain ⟨h1, h2, h3⟩ := hinv
  by_cases hlen : 3 ≤ l.length
  · rw [if_pos hlen]
    refine ⟨?_, ?_, ?_⟩
    · intro e he
      rcases updateOptimal_mem opt (keyName k) (keyVal k) (mean l) h3 e he with
        ⟨rfl, hall⟩ | ⟨hmem, himp⟩
      · refine ⟨k, l, List.mem_append_right _ (by simp), hlen, rfl, rfl, rfl, ?_⟩
        intro k' l' hk' h3' hname
        rcases List.mem_append.mp hk' with hin | hnew
        · obtain ⟨e', he', hname'⟩ := h2 k' l' hin h3'
          have hlt : e'.2.2 < mean l := hall e' he' (by rw [hname', hname])
          obtain ⟨k0, l0, _, _, _, _, _, hdom'⟩ := h1 e' he'
          exact le_of_lt (lt_of_le_of_lt (hdom' k' l' hin h3' hname'.symm) hlt)
        · simp only [List.mem_singleton, Prod.mk.injEq] at hnew
          obtain ⟨rfl, rfl⟩ := hnew
          exact le_refl _
      · obtain ⟨k0, l0, hk0, hl0, ha, hb, hc, hdom⟩ := h1 e hmem
        refine ⟨k0, l0, List.mem_append_left _ hk0, hl0, ha, hb, hc, ?_⟩
        intro k' l' hk' h3' hname
        rcases List.mem_append.mp hk' with hin | hnew
        · exact hdom k' l' hin h3' hname
        · simp only [List.mem_singleton, Prod.mk.injEq] at hnew
          obtain ⟨rfl, rfl⟩ := hnew
          exact himp hname.symm
    · intro k0 l0 hk0 hl0
      rcases List.mem_append.mp hk0 with hin | hnew
      · obtain ⟨e', he', hname'⟩ := h2 k0 l0 hin hl0
        have hmn : keyName k0 ∈
            (updateOptimal opt (keyName k) (keyVal k) (mean l)).map (fun e => e.1) := by
          rw [updateOptimal_names]
          have hx : keyName k0 ∈ opt.map (fun e => e.1) := List.mem_map.mpr ⟨e', he', hname'⟩
          split_ifs <;> simp [hx]
        obtain ⟨e, he, hname⟩ := List.mem_map.mp hmn
        exact ⟨e, he, hname⟩
      · simp only [List.mem_singleton, Prod.mk.injEq] at hnew
        obtain ⟨rfl, rfl⟩ := hnew
        have hmn : keyName k0 ∈
            (updateOptimal opt (keyName k0) (keyVal k0) (mean l0)).map (fun e => e.1) := by
          rw [updateOptimal_names]
          split_ifs with hin2
          · exact hin2
          · exact List.mem_append_right _ (by simp)
        obtain ⟨e, he, hname⟩ := List.mem_map.mp hmn
        exact ⟨e, he, hname⟩
    · rw [updateOptimal_names]
      split_ifs with hin
      · exact h3
      · rw [List.nodup_append]
        refine ⟨h3, List.nodup_singleton _, ?_⟩
        intro a ha hb
        rw [List.mem_singleton] at hb
        subst hb
        exact hin ha
  · rw [if_neg hlen]
    refine ⟨?_, ?_, h3⟩
    · intro e he
      obtain ⟨k0, l0, hk0, hl0, ha, hb, hc, hdom⟩ := h1 e he
      refine ⟨k0, l0, List.mem_append_left _ hk0, hl0, ha, hb, hc, ?_⟩
      intro k' l' hk' h3' hname
      rcases List.mem_append.mp hk' with hin | hnew
      · exact hdom k' l' hin h3' hname
      · simp only [List.mem_singleton, Prod.mk.injEq] at hnew
        obtain ⟨rfl, rfl⟩ := hnew
        exact absurd h3' hlen
    · intro k0 l0 hk0 hl0
      rcases List.mem_append.mp hk0 with hin | hnew
      · exact h2 k0 l0 hin hl0
      · simp only [List.mem_singleton, Prod.mk.injEq] at hnew
        obtain ⟨rfl, rfl⟩ := hnew
        exact absurd hl0 hlen

lemma optInv_foldl (rest : List (String × List ℚ)) :
    ∀ (processed : List (String × List ℚ)) (opt : List (String × String × ℚ)),
      OptInv processed opt →
      OptInv (processed ++ rest)
        (rest.foldl (fun opt kl =>
          if 3 ≤ kl.2.length then updateOptimal opt (keyName kl.1) (keyVal kl.1) (mean kl.2)
          else opt) opt) := by
  induction rest with
  | nil => intro processed opt h; simpa using h
  | cons kl rest' ih =>
    intro processed opt h
    rw [List.foldl_cons]
    have step := optInv_append processed opt kl.1 kl.2 h
    have hres := ih (processed ++ [kl])
      (if 3 ≤ kl.2.length then updateOptimal opt (keyName kl.1) (keyVal kl.1) (mean kl.2)
       else opt) step
    simpa [List.append_assoc] using hres

lemma optInv_buildOptimal (history : List ExecutionMetrics) :
    OptInv (paramScores history) (buildOptimal (paramScores history)) := by
  have h0 : OptInv [] [] :=
    ⟨fun e he => absurd he (List.not_mem_nil e),
     fun k l hk _ => absurd hk (List.not_mem_nil (k, l)),
     List.nodup_nil⟩
  have hres := optInv_foldl (paramScores history) [] [] h0
  simpa [buildOptimal] using hres

/-- C7 counterexample: the grouping key is the string "param=value", so a
parameter name containing '=' is truncated at its first '=' in the result —
three qualifying runs with parameter "a=b" = "c" make the analysis report
the pair ("a", "b=c"), which was observed in zero qualifying runs. -/
theorem optimal_parameters_cx :
    ("a", "b=c") ∈ findOptimalParameters eqNameHistory ∧
    countRuns "a" "b=c" eqNameHistory = 0 := by
  with_unfolding_all decide

/-- C7 (amended, proved under the implicit dict assumptions the source
relies on: parameter names contain no '=' and are unique within a run):
every (name, value) pair in optimal_parameters was observed in at least 3
qualifying runs (success and quality_score > 0.7), and its group's mean
quality score is maximal among that name's groups observed in ≥ 3
qualifying runs. For a name containing '=' the reported pair can be one
never observed (see the counterexample). -/
theorem optimal_parameters_sound (history : List ExecutionMetrics)
    (hfree : ∀ m ∈ history, ∀ p ∈ m.parameters, '=' ∉ p.1.data)
    (hnd : ∀ m ∈ history, (m.parameters.map Prod.fst).Nodup)
    (n v : String) (hmem : (n, v) ∈ findOptimalParameters history) :
    3 ≤ countRuns n v history ∧
    ∀ v2 : String, 3 ≤ countRuns n v2 history →
      mean (groupScores n v2 history) ≤ mean (groupScores n v history) := by
  have hfreeQ : ∀ m ∈ qualifying history, ∀ p ∈ m.parameters, '=' ∉ p.1.data :=
    fun m hm => hfree m (List.mem_of_mem_filter hm)
  obtain ⟨e, he, heq⟩ := List.mem_map.mp hmem
  rw [Prod.mk.injEq] at heq
  obtain ⟨hn1, hv1⟩ := heq
  obtain ⟨hInv1, hInv2, hInv3⟩ := optInv_buildOptimal history
  obtain ⟨k, l, hkl, hl3, hek, hev, hes, hdom⟩ := hInv1 e he
  have hlook := dlookup_of_mem_nodup (paramScores history) k l
    (nodup_dkeys_paramScores history) hkl
  rw [dlookup_paramScores] at hlook
  simp only [optBucket] at hlook
  have hz : scoresOf k (occList (qualifying history)) ≠ [] := by
    intro h0
    rw [if_pos h0] at hlook
    exact Option.noConfusion hlook
  rw [if_neg hz] at hlook
  have hl_eq : l = scoresOf k (occList (qualifying history)) :=
    (Option.some_inj.mp hlook).symm
  obtain ⟨kq, hkq_mem, hkq_key⟩ := scoresOf_ne_nil_exists k _ hz
  obtain ⟨m, hm_q, p, hp, hkq_eq⟩ := occList_mem_origin _ kq hkq_mem
  have hk_eq : k = mkKey p.1 p.2 := by rw [← hkq_key, hkq_eq]
  have hpfree : '=' ∉ p.1.data := hfreeQ m hm_q p hp
  have hkeyname : keyName k = p.1 := by
    rw [hk_eq]; exact keyName_mkKey p.1 p.2 hpfree
  have hkeyval : keyVal k = p.2 := by
    rw [hk_eq]; exact keyVal_mkKey p.1 p.2 hpfree
  have hn_eq : n = p.1 := by rw [← hn1, hek, hkeyname]
  have hv_eq : v = p.2 := by rw [← hv1, hev, hkeyval]
  have hnfree : '=' ∉ n.data := hn_eq ▸ hpfree
  have hk_nv : k = mkKey n v := by rw [hk_eq, hn_eq, hv_eq]
  have hgroup : l = groupScores n v history := by
    rw [hl_eq, hk_nv]
    unfold groupScores
    exact scoresOf_occList_eq_group n v (qualifying history) hfreeQ hnfree
  constructor
  · rw [← groupScores_length_eq_countRuns n v history hnd, ← hgroup]
    exact hl3
  · intro v2 h3
    have hlen2 : 3 ≤ (groupScores n v2 history).length := by
      rw [groupScores_length_eq_countRuns n v2 history hnd]; exact h3
    have hg2 : scoresOf (mkKey n v2) (occList (qualifying history)) =
        groupScores n v2 history := by
      unfold groupScores
      exact scoresOf_occList_eq_group n v2 (qualifying history) hfreeQ hnfree
    have hne2 : groupScores n v2 history ≠ [] := by
      intro h0; rw [h0] at hlen2; simp at hlen2
    have hlk2 : dlookup (mkKey n v2) (paramScores history) =
        some (groupScores n v2 history) := by
      rw [dlookup_paramScores, hg2]
      simp only [optBucket]
      rw [if_neg hne2]
    have hmem2 := mem_of_dlookup _ _ _ hlk2
    have hname2 : keyName (mkKey n v2) = e.1 := by
      rw [keyName_mkKey n v2 hnfree, hn1]
    have hle := hdom (mkKey n v2) (groupScores n v2 history) hmem2 hlen2 hname2
    rw [hes, hgroup] at hle
    exact hle

/-- C7 witness: in a history with three x=5 runs at quality 0.9 and three
x=7 runs at quality 0.8, the selected pair ("x","5") was observed in ≥ 3
qualifying runs and its mean beats the competing x=7 group. -/
theorem optimal_parameters_sound_witness :
    3 ≤ countRuns "x" "5" twoValueHistory ∧
    mean (groupScores "x" "7" twoValueHistory) ≤ mean (groupScores "x" "5" twoValueHistory) := by
  have h := optimal_parameters_sound twoValueHistory
    (by with_unfolding_all decide) (by with_unfolding_all decide) "x" "5"
    (by with_unfolding_all decide)
  exact ⟨h.1, h.2 "7" (by with_unfolding_all decide)⟩
